import Mathlib

/-!
# A verification development for the RasterPack raster-grid library

This file gives a shallow embedding of the core data model and operations of
the RasterPack repository (`raster_pack/dataset/dataset.py`,
`raster_pack/processes/tools/mosaic.py`, `raster_pack/processes/tools/clip.py`,
`raster_pack/processes/resample/rasterio_resample.py`) and proves or refutes
the specification claims about them.

Conventions of the embedding:
* Numeric cell values and coordinates are modelled over `ℚ`; the IEEE `nan`
  sentinel that the code introduces via `numpy.nan` is one extra constructor
  of the value type `Val`, with Python/IEEE equality (`nan == x` is false)
  modelled by `Val.pyEq`.
* 2-D numpy arrays are lists of row lists (`Arr`); band dictionaries are
  insertion-ordered association lists (`Bands`), matching Python `dict`
  iteration order.
* Mutation is made explicit by returning post-states: a function that
  mutates its arguments returns the mutated values alongside its result.
* A Python exception (raise / assert failure / TypeError / IndexError) is an
  `Except.error` carrying a constructor of `Err` naming the raise site.
-/

namespace RasterPack

/-- An error raised by the library code.  The Python sources raise
`RuntimeError` / `AssertionError` / built-in exceptions; each constructor
corresponds to one raise site (named after the specification's taxonomy
where a name applies). -/
inductive Err where
  | incompatibleGrid
  | duplicateBand
  | typeError
  | schemaMismatch
  | alignmentOverflow
  | indexError
  | keyError
  | nonSquareResolution
  | emptyIntersection
  | crsMismatch
  | valueError
  deriving DecidableEq, Repr

/-- A Python numeric cell value: either the IEEE `nan` produced by
`numpy.nan`, or an exact number (modelled over `ℚ`). -/
inductive Val where
  | nan
  | q (x : ℚ)
  deriving DecidableEq, Repr

instance : Inhabited Val := ⟨Val.nan⟩

/-- Python/IEEE equality test on values: `nan` compares unequal to
everything, including itself. -/
def Val.pyEq : Val → Val → Bool
  | .nan, _ => false
  | _, .nan => false
  | .q a, .q b => a == b

/-- Python `!=` on values (negation of `pyEq`; in particular
`nan != nan` is `true`). -/
def Val.pyNe (a b : Val) : Bool := !(a.pyEq b)

/-- A 2-D numpy array as a list of row lists. -/
abbrev Arr := List (List Val)

/-- Number of rows of an array (`len(a)`). -/
def Arr.rows (a : Arr) : ℕ := a.length

/-- Number of columns of an array (`len(a[0])`, the length of the first
row; 0 for an empty array). -/
def Arr.cols (a : Arr) : ℕ := (a.headD []).length

/-- Cell read `a[r][c]` for in-range nonnegative indices, with a default
for out-of-range reads (used only where the source guarantees range). -/
def Arr.get2 (a : Arr) (r c : ℕ) : Val := (a.getD r []).getD c .nan

/-- An array is rectangular with `r` rows and `c` columns. -/
def Arr.shaped (a : Arr) (r c : ℕ) : Prop :=
  a.length = r ∧ ∀ row ∈ a, row.length = c

instance (a : Arr) (r c : ℕ) : Decidable (a.shaped r c) := by
  unfold Arr.shaped; infer_instance

/-- `numpy` array creation: `r × c` array filled with value `v`
(`np.ndarray(shape=(r,c))` followed by `fill(v)`). -/
def npFull (r c : ℕ) (v : Val) : Arr :=
  List.replicate r (List.replicate c v)

/-- `np.where(a == sentinel, repl, a)`: elementwise replacement of cells
equal (in the IEEE sense) to `sentinel` by `repl`. -/
def npWhereEq (a : Arr) (sentinel repl : Val) : Arr :=
  a.map (fun row => row.map (fun v => if v.pyEq sentinel then repl else v))

/-! ## Python list indexing and slicing -/

/-- Resolve a Python subscript index against a list of length `n`:
indices in `[0, n)` are used directly, indices in `[-n, 0)` wrap from the
end, anything else is an `IndexError` (`none`). -/
def pyIdx (n : ℕ) (i : ℤ) : Option ℕ :=
  if 0 ≤ i ∧ i < (n : ℤ) then some i.toNat
  else if -(n : ℤ) ≤ i ∧ i < 0 then some (i + n).toNat
  else none

/-- Resolve one endpoint of a Python slice `l[s:e]` against length `n`:
negative endpoints are taken from the end, and the result is clamped
into `[0, n]`. -/
def pySliceIdx (n : ℕ) (i : ℤ) : ℕ :=
  if i < 0 then (max (i + n) 0).toNat else min i.toNat n

/-- Python slice `l[s:e]` (step 1): the elements with resolved indices in
`[s', e')`; empty when `s' ≥ e'`. -/
def pySlice (l : List α) (s e : ℤ) : List α :=
  (l.take (pySliceIdx l.length e)).drop (pySliceIdx l.length s)

/-- Python single-element assignment `l[i] = v`; `IndexError` when `i` is
out of range on both ends. -/
def pySet (l : List α) (i : ℤ) (v : α) : Except Err (List α) :=
  match pyIdx l.length i with
  | some n => .ok (l.set n v)
  | none => .error .indexError

/-! ## Affine transforms (the `affine`/`rasterio.transform` interface)

An affine transform `(a, b, c, d, e, f)` maps pixel coordinates
`(col, row)` to world coordinates `x = a·col + b·row + c`,
`y = d·col + e·row + f`. -/

structure Affine where
  a : ℚ
  b : ℚ
  c : ℚ
  d : ℚ
  e : ℚ
  f : ℚ
  deriving DecidableEq, Repr

/-- Forward application `T * (col, row)`. -/
def Affine.apply (t : Affine) (col row : ℚ) : ℚ × ℚ :=
  (t.a * col + t.b * row + t.c, t.d * col + t.e * row + t.f)

/-- Inverse application `~T * (x, y)`, returning fractional
`(col, row)`.  Requires an invertible transform (`ae − bd ≠ 0`); the
value at a non-invertible transform is irrelevant (Lean's total
division by zero). -/
def Affine.invApply (t : Affine) (x y : ℚ) : ℚ × ℚ :=
  let det := t.a * t.e - t.b * t.d
  ((t.e * (x - t.c) - t.b * (y - t.f)) / det,
   (-t.d * (x - t.c) + t.a * (y - t.f)) / det)

/-- `rasterio.transform.from_origin(west, north, xsize, ysize)`:
north-up transform anchored at the upper-left corner. -/
def from_origin (west north xsize ysize : ℚ) : Affine :=
  ⟨xsize, 0, west, 0, -ysize, north⟩

/-- `rasterio.transform.xy(transform, rows, cols, offset)` for a single
pixel: world coordinate of the pixel's center (`offset='center'`) or
upper-left corner (`offset='ul'`). -/
def transform_xy (t : Affine) (row col : ℚ) (center : Bool) : ℚ × ℚ :=
  if center then t.apply (col + 1/2) (row + 1/2) else t.apply col row

/-- `rasterio.transform.rowcol(transform, x, y)` with the default
`op=math.floor`: the integer `(row, col)` containing the world point. -/
def transform_rowcol (t : Affine) (x y : ℚ) : ℤ × ℤ :=
  let cr := t.invApply x y
  (⌊cr.2⌋, ⌊cr.1⌋)

/-- `rasterio.transform.array_bounds(height, width, transform)`:
`(west, south, east, north)` of an array, from the upper-left corner of
pixel `(0,0)` and the lower-right corner of pixel
`(height-1, width-1)`. -/
def array_bounds (height width : ℤ) (t : Affine) : ℚ × ℚ × ℚ × ℚ :=
  let wn := t.apply 0 0
  let es := t.apply (width : ℚ) (height : ℚ)
  (wn.1, es.2, es.1, wn.2)

/-! ## Profiles, metadata and datasets (`raster_pack/dataset/dataset.py`) -/

/-- The grid-level profile (`rasterio.profiles.Profile`), modelled as a
record of the keys the library reads and writes (`crs`, `transform`,
`width`, `height`, `count`, `pixel_dimensions`, `nodata`, `res`).
Asserts of the form `"crs" in profile.data.keys()` are always satisfied
in this model. -/
structure Profile where
  crs : String
  transform : Affine
  width : ℤ
  height : ℤ
  count : ℤ
  pixel_dimensions : ℚ × ℚ
  nodata : Option Val
  res : ℚ × ℚ
  deriving DecidableEq, Repr

/-- Dataset metadata; the library reads the `"resolution"` key. -/
structure Meta where
  resolution : ℚ × ℚ
  deriving DecidableEq, Repr

/-- Band dictionary: insertion-ordered association list with unique keys,
matching Python `dict` semantics. -/
abbrev Bands := List (String × Arr)

/-- The `subdatasets` field of a `Dataset`.  In the source it is declared
`Optional[List[Dataset]]` (`None` or a list), but `combine` additionally
produces an empty `dict` (`{**a, **b}`), so all three Python shapes are
representable. -/
inductive Subds (α : Type) where
  | pyNone : Subds α
  | pyList (l : List α) : Subds α
  | pyEmptyDict : Subds α

/-- `raster_pack.dataset.dataset.Dataset`: profile, band dictionary,
nodata value (`None` or a value), optional metadata, and optional nested
sub-datasets. -/
inductive Dataset where
  | mk (profile : Profile) (bands : Bands) (nodata : Option Val)
       (meta : Option Meta) (subdatasets : Subds Dataset) : Dataset

def Dataset.profile : Dataset → Profile
  | .mk p _ _ _ _ => p

def Dataset.bands : Dataset → Bands
  | .mk _ b _ _ _ => b

def Dataset.nodata : Dataset → Option Val
  | .mk _ _ n _ _ => n

def Dataset.meta : Dataset → Option Meta
  | .mk _ _ _ m _ => m

def Dataset.subdatasets : Dataset → Subds Dataset
  | .mk _ _ _ _ s => s

/-- Field assignment `dataset.nodata = n`. -/
def Dataset.setNodata : Dataset → Option Val → Dataset
  | .mk p b _ m s, n => .mk p b n m s

/-- Field assignment `dataset.profile = p` (rebinding the profile the
dataset points at). -/
def Dataset.setProfile : Dataset → Profile → Dataset
  | .mk _ b n m s, p => .mk p b n m s

/-- Field assignment `dataset.bands = b`. -/
def Dataset.setBands : Dataset → Bands → Dataset
  | .mk p _ n m s, b => .mk p b n m s

/-- `dict` lookup on a band dictionary (`bands[k]`, `None`-free form). -/
def pyLookup (k : String) : Bands → Option Arr
  | [] => none
  | p :: rest => if p.1 = k then some p.2 else pyLookup k rest

/-- `del bands[k]`: remove the (unique) entry with key `k`. -/
def pyDel (k : String) (b : Bands) : Bands :=
  b.filter (fun p => p.1 ≠ k)

/-- Python dict merge `{**a, **b}`: the keys of `a` in order (values
overridden by `b` where shared) followed by the keys of `b` not in `a`. -/
def pyDictMerge (a b : Bands) : Bands :=
  a.map (fun p => (p.1, (pyLookup p.1 b).getD p.2)) ++
    b.filter (fun p => (pyLookup p.1 a).isNone)

/-- Python `dict.keys() == dict.keys()`: equality of key *sets*. -/
def keySetEq (a b : Bands) : Bool :=
  a.all (fun p => (pyLookup p.1 b).isSome) && b.all (fun p => (pyLookup p.1 a).isSome)

/-- Field assignment `dataset.subdatasets = s`. -/
def Dataset.setSubdatasets : Dataset → Subds Dataset → Dataset
  | .mk p b n m _, s => .mk p b n m s

/-! ## `combine` (`raster_pack/dataset/dataset.py`)

`combine` mutates `first` (it assigns `first.bands` and
`first.subdatasets`) and returns `first`; with `copy=False` it can also
mutate `second` (deleting duplicate bands deletes them from
`second.bands` itself).  The embedding therefore returns the triple
`(result, first-after, second-after)`. -/

/-- The duplicate-key loop of `combine`: iterate over `first`'s band keys
and, for each key also present in `second`'s band dict, either raise
(`skip_duplicates=False`) or delete the entry from `second`'s band
dict. -/
def removeDuplicates (keys : List String) (skip_duplicates : Bool) (second_bands : Bands) :
    Except Err Bands :=
  match keys with
  | [] => .ok second_bands
  | k :: rest =>
    if (pyLookup k second_bands).isSome then
      if !skip_duplicates then .error .duplicateBand
      else removeDuplicates rest skip_duplicates (pyDel k second_bands)
    else removeDuplicates rest skip_duplicates second_bands

/-- `combine(first, second, skip_duplicates, copy)`.  `deepcopy` is the
identity on values; the `copy` flag only decides whether the duplicate
deletions alias `second.bands` (so `second` is mutated exactly when
`copy=False` and duplicates are skipped).  Errors are raised in source
order: `TypeError` on a `None` metadata subscript, the compatibility
`RuntimeError`, the duplicate-band `RuntimeError`, and finally the
`TypeError` from `{**a, **b}` applied to a `list`-valued `subdatasets`
field (`None` having been replaced by `{}`). -/
def combine (first second : Option Dataset) (skip_duplicates : Bool) (copy : Bool) :
    Except Err (Option Dataset × Option Dataset × Option Dataset) :=
  match first, second with
  | none, s => .ok (s, none, s)
  | some f, none => .ok (some f, some f, none)
  | some f, some s =>
    match f.meta, s.meta with
    | some fm, some sm =>
      if fm.resolution ≠ sm.resolution ∨ f.profile.crs ≠ s.profile.crs ∨
          f.profile.height ≠ s.profile.height ∨ f.profile.width ≠ s.profile.width then
        .error .incompatibleGrid
      else
        match removeDuplicates (f.bands.map Prod.fst) skip_duplicates s.bands with
        | .error e => .error e
        | .ok second_bands =>
          let merged := pyDictMerge f.bands second_bands
          match (match f.subdatasets with | .pyNone => Subds.pyEmptyDict | x => x),
                (match s.subdatasets with | .pyNone => Subds.pyEmptyDict | x => x) with
          | .pyEmptyDict, .pyEmptyDict =>
            let f' := (f.setBands merged).setSubdatasets .pyEmptyDict
            let s' := if copy then s else s.setBands second_bands
            .ok (some f', some f', some s')
          | _, _ => .error .typeError
    | _, _ => .error .typeError

/-! ## Bounds -/

/-- The `(west, south, east, north)` tuple returned by
`rasterio.transform.array_bounds`, as a record. -/
structure Bounds where
  west : ℚ
  south : ℚ
  east : ℚ
  north : ℚ
  deriving DecidableEq, Repr

/-- `rasterio.transform.array_bounds(height, width, transform)`. -/
def arrayBounds (height width : ℤ) (t : Affine) : Bounds :=
  let wn := t.apply 0 0
  let es := t.apply (width : ℚ) (height : ℚ)
  ⟨wn.1, es.2, es.1, wn.2⟩

/-! ## The mosaic compositor (`raster_pack/processes/tools/mosaic.py`) -/

/-- The inner loop of `overwrite_with_offset` for one source row: write
`row[c]` into the destination row at subscript `c + col_offset` for
`c = c₀, …, c₀+k−1` (Python subscript semantics, so a negative resolved
index wraps and an out-of-range one is an `IndexError`). -/
def writeCellsAux (row : List Val) (col_offset : ℤ) : ℕ → ℕ → List Val → Except Err (List Val)
  | _, 0, dst => .ok dst
  | c, k+1, dst =>
    match pySet dst ((c : ℤ) + col_offset) (row.getD c .nan) with
    | .error e => .error e
    | .ok dst' => writeCellsAux row col_offset (c+1) k dst'

/-- The outer loop of `overwrite_with_offset`: for each source row `r`,
write the first `C` cells of that row into substrate row
`r + row_offset`. -/
def writeRowsAux (input_array : Arr) (C : ℕ) (row_offset col_offset : ℤ) :
    ℕ → ℕ → Arr → Except Err Arr
  | _, 0, substrate => .ok substrate
  | r, k+1, substrate =>
    match pyIdx substrate.length ((r : ℤ) + row_offset) with
    | none => .error .indexError
    | some rn =>
      match writeCellsAux (input_array.getD r []) col_offset 0 C (substrate.getD rn []) with
      | .error e => .error e
      | .ok row' => writeRowsAux input_array C row_offset col_offset (r+1) k (substrate.set rn row')

/-- `overwrite_with_offset(input_array, row_offset, col_offset,
substrate_array)`: the doubly nested per-pixel copy loop, iterating
`row_num` over `range(len(input_array))` and `col_num` over
`range(len(input_array[0]))`. -/
def overwrite_with_offset (input_array : Arr) (row_offset col_offset : ℤ)
    (substrate_array : Arr) : Except Err Arr :=
  writeRowsAux input_array input_array.cols row_offset col_offset 0 input_array.rows
    substrate_array

/-- The `(row, col)` offset `calc_offset_overwrite` computes for an input
array: the substrate pixel containing the world coordinate of the center
of the input's pixel `(0,0)`. -/
def mosaicOffset (input_transform substrate_transform : Affine) : ℤ × ℤ :=
  let xy := transform_xy input_transform 0 0 true
  transform_rowcol substrate_transform xy.1 xy.2

/-- `calc_offset_overwrite(input_array, input_transform, substrate_array,
substrate_transform)`: compute the substrate pixel containing the center
of the input's pixel `(0,0)`, check the two overflow asserts, and
delegate to `overwrite_with_offset`.  The asserts bound the offsets only
from above. -/
def calc_offset_overwrite (input_array : Arr) (input_transform : Affine)
    (substrate_array : Arr) (substrate_transform : Affine) : Except Err Arr :=
  let offset := mosaicOffset input_transform substrate_transform
  if offset.1 + (input_array.rows : ℤ) - 1 < (substrate_array.rows : ℤ) ∧
      offset.2 + (input_array.cols : ℤ) - 1 < (substrate_array.cols : ℤ) then
    overwrite_with_offset input_array offset.1 offset.2 substrate_array
  else .error .alignmentOverflow

/-- The union bounding box computed at the head of `direct_merge`:
componentwise min of the wests/souths and max of the easts/norths of the
two sources' `array_bounds`. -/
def direct_merge_bounds (first_data : Arr) (first_transform : Affine)
    (second_data : Arr) (second_transform : Affine) : Bounds :=
  let first_bounds := arrayBounds (first_data.rows : ℤ) (first_data.cols : ℤ) first_transform
  let second_bounds := arrayBounds (second_data.rows : ℤ) (second_data.cols : ℤ) second_transform
  ⟨if first_bounds.west ≤ second_bounds.west then first_bounds.west else second_bounds.west,
   if first_bounds.south ≤ second_bounds.south then first_bounds.south else second_bounds.south,
   if first_bounds.east ≥ second_bounds.east then first_bounds.east else second_bounds.east,
   if first_bounds.north ≥ second_bounds.north then first_bounds.north else second_bounds.north⟩

/-- The output transform of `direct_merge`: anchored at the union box's
north-west corner at the given pixel size (`rio.transform.from_origin`). -/
def direct_merge_transform (first_data : Arr) (first_transform : Affine)
    (second_data : Arr) (second_transform : Affine) (pixel_resolution : ℚ × ℚ) : Affine :=
  let nb := direct_merge_bounds first_data first_transform second_data second_transform
  from_origin nb.west nb.north pixel_resolution.1 pixel_resolution.2

/-- The nodata-filled substrate of `direct_merge`, whose dimensions are
`rowcol(new_transform, east, south)`. -/
def direct_merge_substrate (first_data : Arr) (first_transform : Affine)
    (second_data : Arr) (second_transform : Affine) (pixel_resolution : ℚ × ℚ)
    (nodata : Val) : Arr :=
  let nb := direct_merge_bounds first_data first_transform second_data second_transform
  let nt := direct_merge_transform first_data first_transform second_data second_transform
    pixel_resolution
  let new_raster_dim := transform_rowcol nt nb.east nb.south
  npFull new_raster_dim.1.toNat new_raster_dim.2.toNat nodata

/-- `direct_merge(first_data, first_transform, second_data,
second_transform, pixel_resolution, nodata_value)`: union the two world
bounding boxes, build the output transform anchored at the union's
north-west corner, allocate the nodata-filled substrate, and write the
first source and then the second source into it. -/
def direct_merge (first_data : Arr) (first_transform : Affine)
    (second_data : Arr) (second_transform : Affine)
    (pixel_resolution : ℚ × ℚ) (nodata_value : Option Val) : Except Err (Arr × Affine) :=
  match nodata_value with
  | none => .error .schemaMismatch
  | some nodata =>
    let new_transform := direct_merge_transform first_data first_transform second_data
      second_transform pixel_resolution
    let new_array := direct_merge_substrate first_data first_transform second_data
      second_transform pixel_resolution nodata
    match calc_offset_overwrite first_data first_transform new_array new_transform with
    | .error e => .error e
    | .ok after_first =>
      match calc_offset_overwrite second_data second_transform after_first new_transform with
      | .error e => .error e
      | .ok after_second => .ok (after_second, new_transform)

/-- The schema asserts at the head of `merge`: the membership asserts on
the profile keys are always satisfied in this model; the remaining
asserts require equal CRS, equal band counts and equal band-key sets. -/
def mergeChecks (first second : Dataset) : Bool :=
  first.profile.crs == second.profile.crs &&
    first.bands.length == second.bands.length &&
    keySetEq first.bands second.bands

/-- The body of `merge`'s per-band loop for one band of the (nodata-fixed)
inputs: the dead nodata remap, `direct_merge`, and the optional
re-anchoring onto `reference`.  Returns the merged array and transform. -/
def mergeBand (first1 second1 : Dataset) (reference : Option Dataset)
    (band_key : String) (first_arr : Arr) : Except Err (Arr × Affine) :=
  match pyLookup band_key second1.bands with
  | none => .error .keyError
  | some second_arr =>
    -- The source computes `np.where(second_band_data == second.nodata,
    -- first.nodata, second_band_data)` when the two nodata values differ,
    -- but never assigns the result, so the remap is a no-op; the unused
    -- binding mirrors that discarded expression.
    let _discarded :=
      if (first1.nodata.getD .nan).pyNe (second1.nodata.getD .nan) then
        npWhereEq second_arr (second1.nodata.getD .nan) (first1.nodata.getD .nan)
      else second_arr
    match direct_merge first_arr first1.profile.transform second_arr
        second1.profile.transform first1.profile.pixel_dimensions first1.nodata with
    | .error e => .error e
    | .ok merged =>
      match reference with
      | none => .ok merged
      | some refds =>
        match refds.bands with
        | [] => .error .keyError
        | (_, ref_band) :: _ =>
          let nodata_array := npFull ref_band.rows ref_band.cols (first1.nodata.getD .nan)
          direct_merge nodata_array refds.profile.transform merged.1 merged.2
            first1.profile.pixel_dimensions first1.nodata

/-- `merge(first, second, reference)`
(`raster_pack/processes/tools/mosaic.py`).  The function first overwrites
an absent `nodata` on *each input object* with `numpy.nan`, merges every
band of `first` with the same-keyed band of `second`, and then builds the
output profile by overwriting the `transform`, `width`, `height` and
`count` entries of `first`'s own profile.  The embedding returns
`(output, first-after, second-after)` to expose those input mutations;
the band arrays of the inputs are never written. -/
def merge (first second : Dataset) (reference : Option Dataset) :
    Except Err (Dataset × Dataset × Dataset) :=
  if !(mergeChecks first second) then .error .schemaMismatch
  else
    let first1 := first.setNodata (some (first.nodata.getD .nan))
    let second1 := second.setNodata (some (second.nodata.getD .nan))
    let step := first1.bands.foldlM
      (fun (acc : Bands × Affine) (p : String × Arr) =>
        match mergeBand first1 second1 reference p.1 p.2 with
        | .error e => Except.error e
        | .ok merged => Except.ok (acc.1 ++ [(p.1, merged.1)], merged.2))
      ([], (⟨0, 0, 0, 0, 0, 0⟩ : Affine))
    match step with
    | .error e => .error e
    | .ok (new_bands, output_transform) =>
      match new_bands.getLast? with
      | none => .error .keyError
      | some last =>
        let new_profile :=
          { first1.profile with
            transform := output_transform
            width := (last.2.cols : ℤ)
            height := (last.2.rows : ℤ)
            count := (new_bands.length : ℤ) }
        let first2 := first1.setProfile new_profile
        .ok (Dataset.mk new_profile new_bands first1.nodata none .pyNone, first2, second1)

/-! ## Cropping and clipping (`raster_pack/processes/tools/clip.py`) -/

/-- `crop_by_pixel(dataset, row_start, row_end, col_start, col_end,
copy)`: slice every band to `[row_start:row_end, col_start:col_end]`
(Python slice semantics — out-of-range endpoints are silently clamped,
negative endpoints count from the end), move the transform origin to the
old pixel `(row_start, col_start)`, and set `width`/`height` to the raw
differences `col_end - col_start` / `row_end - row_start`.  The source
performs **no bounds validation** (its asserts only check that the
profile keys exist, which always holds in this model) and never raises;
`copy` has no observable effect on values. -/
def crop_by_pixel (dataset : Dataset) (row_start row_end col_start col_end : ℤ)
    (copy : Bool) : Dataset :=
  let bands' := dataset.bands.map
    (fun p => (p.1, (pySlice p.2 row_start row_end).map (fun row => pySlice row col_start col_end)))
  let new_origin_point :=
    transform_xy dataset.profile.transform (row_start : ℚ) (col_start : ℚ) false
  let new_transform := from_origin new_origin_point.1 new_origin_point.2
    dataset.profile.pixel_dimensions.1 dataset.profile.pixel_dimensions.2
  let new_profile :=
    { dataset.profile with
      width := col_end - col_start
      height := row_end - row_start
      transform := new_transform }
  Dataset.mk new_profile bands' dataset.nodata dataset.meta dataset.subdatasets

/-- A vector geometry, represented by what the library reads from it:
its `fiona.bounds` box `(min_x, min_y, max_x, max_y)`. -/
structure Geom where
  min_x : ℚ
  min_y : ℚ
  max_x : ℚ
  max_y : ℚ
  deriving DecidableEq, Repr

/-- An opened shapefile collection: its CRS and its cached feature
geometries. -/
structure Shapefile where
  crs : String
  shapes : List Geom
  deriving DecidableEq, Repr

/-- Python `min` of a mapped nonempty list (`ValueError` on empty
handled by the caller). -/
def listMin (x : ℚ) (xs : List ℚ) : ℚ := xs.foldl min x

/-- Python `max` of a mapped nonempty list. -/
def listMax (x : ℚ) (xs : List ℚ) : ℚ := xs.foldl max x

/-- `crop_by_extent(dataset, shapefile, copy)` on an already-opened
collection (the `str` branch, which reopens a file, is I/O and out of
scope; on the collection branch the source performs no CRS check).
Computes the union bounding box of the shapes, intersects it with the
dataset's own bounds (`max` of the mins, `min` of the maxes), asserts
the intersection nonempty, converts the box corners to pixel `(row,
col)` with `op=math.floor`, and delegates to `crop_by_pixel` with
`row ∈ [rowcol(max_x, max_y).row, rowcol(min_x, min_y).row)` and
`col ∈ [rowcol(min_x, min_y).col, rowcol(max_x, max_y).col)` exactly as
the source unpacks `calc_bounds`. -/
def crop_by_extent (dataset : Dataset) (shapes : List Geom) (copy : Bool) :
    Except Err Dataset :=
  match shapes with
  | [] => .error .valueError
  | g :: gs =>
    let dataset_bounding_box := arrayBounds dataset.profile.height dataset.profile.width
      dataset.profile.transform
    let bb_min_x := max (listMin g.min_x (gs.map Geom.min_x)) dataset_bounding_box.west
    let bb_min_y := max (listMin g.min_y (gs.map Geom.min_y)) dataset_bounding_box.south
    let bb_max_x := min (listMax g.max_x (gs.map Geom.max_x)) dataset_bounding_box.east
    let bb_max_y := min (listMax g.max_y (gs.map Geom.max_y)) dataset_bounding_box.north
    if bb_min_x < bb_max_x ∧ bb_min_y < bb_max_y then
      let rc_min := transform_rowcol dataset.profile.transform bb_min_x bb_min_y
      let rc_max := transform_rowcol dataset.profile.transform bb_max_x bb_max_y
      .ok (crop_by_pixel dataset rc_max.1 rc_min.1 rc_min.2 rc_max.2 copy)
    else .error .emptyIntersection

/-- A value stored in `clip`'s preference dictionaries. -/
inductive PrefVal where
  | bool (b : Bool)
  | int (n : ℤ)
  | pyNone
  | opCeil
  deriving DecidableEq, Repr

/-- `collections.ChainMap(m1, m2)` lookup: the **first** map wins. -/
def chainMapFind (m1 m2 : List (String × PrefVal)) (k : String) : Option PrefVal :=
  match m1.find? (fun p => p.1 = k) with
  | some p => some p.2
  | none => (m2.find? (fun p => p.1 = k)).map Prod.snd

/-- The fixed defaults dictionary built inside `clip`. -/
def clip_defaults : List (String × PrefVal) :=
  [("all_touched", .bool true), ("invert", .bool true), ("crop", .bool true),
   ("pad_x", .int 0), ("pad_y", .int 0), ("pixel_precision", .pyNone),
   ("quantize_op", .opCeil)]

/-- The effective preference dictionary of `clip`:
`dict(ChainMap(defaults, {"crop": crop}))`, looked up per key.  Note the
source passes the *defaults* as the first (highest-priority) chain map. -/
def clip_preferences (crop : Bool) (k : String) : Option PrefVal :=
  chainMapFind clip_defaults [("crop", .bool crop)] k

/-- Truthiness of a preference used in `if clip_preferences["crop"]:`. -/
def prefTruthy : Option PrefVal → Bool
  | some (.bool b) => b
  | some (.int n) => n ≠ 0
  | some .pyNone => false
  | some .opCeil => true
  | none => false

/-- Elementwise `band * mask` with a 0/1 boolean mask (`numpy`
semantics on the values we model: multiplying by `False`/`True` scales
by 0/1, and `nan` stays `nan`). -/
def applyMask (band : Arr) (mask : List (List Bool)) : Arr :=
  band.zipWith (fun row mrow =>
    row.zipWith (fun v m =>
      match v with
      | .nan => .nan
      | .q x => .q (x * (if m then 1 else 0))) mrow) mask

/-- The external rasterize primitive
`rasterio.features.geometry_mask(geometries, out_shape, transform,
all_touched, invert)`, supplied by the caller of `clip`. -/
abbrev GeometryMask := List Geom → ℤ × ℤ → Affine → Bool → Bool → List (List Bool)

/-- `clip(dataset, shapefile_path, crop)`: check the CRS assert, build the
preference `ChainMap`, optionally crop to the shapefile extent (the
branch tests the *effective* `"crop"` preference), rasterize the mask
with the effective `"all_touched"` / `"invert"` preferences, and multiply
every band by the mask. -/
def clip (geometry_mask : GeometryMask) (dataset : Dataset) (shapefile : Shapefile)
    (crop : Bool) : Except Err Dataset :=
  if dataset.profile.crs ≠ shapefile.crs then .error .crsMismatch
  else
    let shapes := shapefile.shapes
    let afterCrop : Except Err Dataset :=
      if prefTruthy (clip_preferences crop "crop") then
        crop_by_extent dataset shapes false
      else .ok dataset
    match afterCrop with
    | .error e => .error e
    | .ok ds1 =>
      let mask := geometry_mask shapes (ds1.profile.height, ds1.profile.width)
        ds1.profile.transform (prefTruthy (clip_preferences crop "all_touched"))
        (prefTruthy (clip_preferences crop "invert"))
      .ok (ds1.setBands (ds1.bands.map (fun p => (p.1, applyMask p.2 mask))))

/-! ## Resampling (`raster_pack/processes/resample/rasterio_resample.py`) -/

/-- Python `int()` applied to a rational: truncation toward zero. -/
def pyInt (x : ℚ) : ℤ := if 0 ≤ x then ⌊x⌋ else ⌈x⌉

/-- The external warp kernel `rasterio.warp.reproject`: given the source
band it yields the cell values written into the destination buffer. -/
abbrev ReprojectKernel := Arr → ℕ → ℕ → Val

/-- Destination-buffer allocation plus external reprojection: the source
allocates `np.empty(shape=(new_width, new_height))` — note the
**transposed** shape, `new_width` rows by `new_height` columns — and
`rio_warp.reproject` fills that buffer in place, so the resulting band
keeps that shape.  Cell values come from the abstract kernel. -/
def reprojectInto (kernel : ReprojectKernel) (src : Arr) (new_width new_height : ℤ) : Arr :=
  (List.range new_width.toNat).map
    (fun r => (List.range new_height.toNat).map (fun c => kernel src r c))

/-- `rasterio_resample(dataset, target_resolution, new_nodata, …)`:
raises unless `meta["resolution"]` is square, computes
`scaling = int(resolution[0]) / target_resolution`, rewrites the profile
(diagonal transform terms divided by `scaling`, shear untouched,
`width`/`height` set to `int(old * scaling)`), and replaces every band
by the externally reprojected buffer.  Dtype casts (`astype`) do not
change the modelled values.  The dataset is mutated in place and
returned; the embedding returns the single post-state. -/
def rasterio_resample (kernel : ReprojectKernel) (dataset : Dataset)
    (target_resolution : ℚ) (new_nodata : Option Val) : Except Err Dataset :=
  match dataset.meta with
  | none => .error .typeError
  | some m =>
    if m.resolution.1 ≠ m.resolution.2 then .error .nonSquareResolution
    else
      let scaling : ℚ := (pyInt m.resolution.1 : ℚ) / target_resolution
      let source_transform := dataset.profile.transform
      let source_nodata := dataset.profile.nodata.getD (.q 0)
      let new_transform : Affine :=
        ⟨source_transform.a / scaling, source_transform.b, source_transform.c,
         source_transform.d, source_transform.e / scaling, source_transform.f⟩
      let new_height := pyInt ((dataset.profile.height : ℚ) * scaling)
      let new_width := pyInt ((dataset.profile.width : ℚ) * scaling)
      let new_nodata' := if new_nodata.isNone then source_nodata else new_nodata.getD (.q 0)
      let new_profile :=
        { dataset.profile with
          res := (target_resolution, target_resolution)
          transform := new_transform
          height := new_height
          width := new_width
          nodata := some new_nodata' }
      let new_bands := dataset.bands.map
        (fun p => (p.1, reprojectInto kernel p.2 new_width new_height))
      .ok (Dataset.mk new_profile new_bands dataset.nodata
        (some { m with resolution := (target_resolution, target_resolution) })
        dataset.subdatasets)

/-! ## Rectangularity -/

/-- An array is rectangular: every row has the length of the first row. -/
def Arr.rect (a : Arr) : Prop := ∀ row ∈ a, row.length = a.cols

instance (a : Arr) : Decidable a.rect := by
  unfold Arr.rect; infer_instance

/-! ## Result projections

Small total projections out of the `(result, first-after, second-after)`
triples, used to state claims about one component of an operation's
outcome. -/

def resultBands (x : Except Err (Option Dataset × Option Dataset × Option Dataset)) :
    Option (Option Bands) := x.toOption.map (fun t => t.1.map Dataset.bands)

def afterFirstBands (x : Except Err (Option Dataset × Option Dataset × Option Dataset)) :
    Option (Option Bands) := x.toOption.map (fun t => t.2.1.map Dataset.bands)

def afterSecond (x : Except Err (Option Dataset × Option Dataset × Option Dataset)) :
    Option (Option Dataset) := x.toOption.map (fun t => t.2.2)

def mergeOut (x : Except Err (Dataset × Dataset × Dataset)) : Option Dataset :=
  x.toOption.map (fun t => t.1)

def mergeFirstAfter (x : Except Err (Dataset × Dataset × Dataset)) : Option Dataset :=
  x.toOption.map (fun t => t.2.1)

def mergeSecondAfter (x : Except Err (Dataset × Dataset × Dataset)) : Option Dataset :=
  x.toOption.map (fun t => t.2.2)

/-! ## Concrete scenarios used by the claims -/

/-- Grid A of the mosaic scenario: 4×4, all 5, pixel size 1, anchored at
the origin, nodata −1. -/
def profA : Profile :=
  { crs := "EPSG:32633", transform := ⟨1, 0, 0, 0, -1, 0⟩, width := 4, height := 4,
    count := 1, pixel_dimensions := (1, 1), nodata := some (.q (-1)), res := (1, 1) }

/-- Grid B's profile: same grid shifted 2 pixels right and 2 down. -/
def profB : Profile := { profA with transform := ⟨1, 0, 2, 0, -1, -2⟩ }

def dsA : Dataset := .mk profA [("b", npFull 4 4 (.q 5))] (some (.q (-1))) (some ⟨(1, 1)⟩) .pyNone

def dsB : Dataset := .mk profB [("b", npFull 4 4 (.q 9))] (some (.q (-1))) (some ⟨(1, 1)⟩) .pyNone

/-- The 6×6 substrate the mosaic scenario must produce. -/
def mergedAB : Arr :=
  [List.replicate 4 (Val.q 5) ++ List.replicate 2 (Val.q (-1)),
   List.replicate 4 (Val.q 5) ++ List.replicate 2 (Val.q (-1)),
   [Val.q 5, Val.q 5] ++ List.replicate 4 (Val.q 9),
   [Val.q 5, Val.q 5] ++ List.replicate 4 (Val.q 9),
   [Val.q (-1), Val.q (-1)] ++ List.replicate 4 (Val.q 9),
   [Val.q (-1), Val.q (-1)] ++ List.replicate 4 (Val.q 9)]

/-- A 1×1 profile at the origin with pixel size 1. -/
def prof1 : Profile :=
  { crs := "E", transform := ⟨1, 0, 0, 0, -1, 0⟩, width := 1, height := 1,
    count := 1, pixel_dimensions := (1, 1), nodata := some (.q 0), res := (1, 1) }

/-- Nodata-contamination scenario: `first` with nodata 0. -/
def dsF3 : Dataset := .mk prof1 [("b", [[.q 5]])] (some (.q 0)) none .pyNone

/-- Nodata-contamination scenario: aligned `second` whose single pixel
holds its own nodata sentinel −1. -/
def dsS3 : Dataset :=
  .mk { prof1 with nodata := some (.q (-1)) } [("b", [[.q (-1)]])] (some (.q (-1))) none .pyNone

/-- Mutation scenario: aligned 1×1 inputs with absent nodata. -/
def dsF10 : Dataset := .mk { prof1 with nodata := none } [("b", [[.q 5]])] none none .pyNone

def dsS10 : Dataset := .mk { prof1 with nodata := none } [("b", [[.q 9]])] none none .pyNone

/-- Resample scenario: a 4-row × 3-column grid at resolution 10. -/
def profC2 : Profile :=
  { crs := "E", transform := ⟨10, 0, 0, 0, -10, 0⟩, width := 3, height := 4,
    count := 1, pixel_dimensions := (10, 10), nodata := some (.q 0), res := (10, 10) }

def dsC2 : Dataset := .mk profC2 [("b", npFull 4 3 (.q 1))] (some (.q 0)) (some ⟨(10, 10)⟩) .pyNone

/-- Rounding scenario: a 3×3 grid at resolution 10 (3 · 10/4 = 7.5). -/
def dsC6 : Dataset :=
  .mk { profC2 with width := 3, height := 3 } [("b", npFull 3 3 (.q 1))] (some (.q 0))
    (some ⟨(10, 10)⟩) .pyNone

/-- A reprojection kernel writing zeros (concrete instantiation of the
external `rio_warp.reproject`). -/
def zeroKernel : ReprojectKernel := fun _ _ _ => .q 0

/-- Crop scenario: a 2×2 grid with distinct cell values. -/
def ds7 : Dataset :=
  .mk { prof1 with width := 2, height := 2 } [("b", [[.q 1, .q 2], [.q 3, .q 4]])]
    (some (.q 0)) none .pyNone

/-- Clip scenario: a 4×4 grid of 7s at the origin. -/
def prof4 : Profile :=
  { crs := "E", transform := ⟨1, 0, 0, 0, -1, 0⟩, width := 4, height := 4,
    count := 1, pixel_dimensions := (1, 1), nodata := some (.q 0), res := (1, 1) }

def ds4 : Dataset := .mk prof4 [("b", npFull 4 4 (.q 7))] (some (.q 0)) none .pyNone

/-- A shapefile whose single geometry's bounds select the interior pixel
window `[1,2) × [1,2)` of `ds4`. -/
def sf4 : Shapefile := ⟨"E", [⟨5/4, -11/4, 11/4, -5/4⟩]⟩

/-- A rasterize primitive returning an all-`True` mask of the requested
shape. -/
def gmAll : GeometryMask := fun _ shape _ _ _ =>
  List.replicate shape.1.toNat (List.replicate shape.2.toNat true)

/-- Combine scenario: band `"x"`. -/
def dsX : Dataset := .mk prof4 [("x", npFull 4 4 (.q 1))] (some (.q 0)) (some ⟨(1, 1)⟩) .pyNone

/-- Combine scenario: band `"y"` (disjoint from `dsX`). -/
def dsY : Dataset := .mk prof4 [("y", npFull 4 4 (.q 2))] (some (.q 0)) (some ⟨(1, 1)⟩) .pyNone

/-- Combine scenario: band `"x"` again with different data (colliding
key). -/
def dsXdup : Dataset := .mk prof4 [("x", npFull 4 4 (.q 3))] (some (.q 0)) (some ⟨(1, 1)⟩) .pyNone

/-- Combine scenario: a grid carrying one sub-dataset and a band disjoint
from `dsY`. -/
def dsSub : Dataset :=
  .mk prof4 [("z", npFull 4 4 (.q 1))] (some (.q 0)) (some ⟨(1, 1)⟩) (.pyList [dsX])

/-- Combine scenario: a grid carrying one sub-dataset and the band `"x"`
shared with `dsXdup`. -/
def dsSubShared : Dataset :=
  .mk prof4 [("x", npFull 4 4 (.q 1))] (some (.q 0)) (some ⟨(1, 1)⟩) (.pyList [dsX])

/-- Discriminator: is this `subdatasets` value the empty dict `{}`? -/
def Subds.isEmptyDictB {α : Type} : Subds α → Bool
  | .pyEmptyDict => true
  | _ => false

/-- The unit north-up transform at the origin. -/
def tUnit : Affine := ⟨1, 0, 0, 0, -1, 0⟩

/-- `prof1` with its nodata entry absent. -/
def profNoNodata : Profile := { prof1 with nodata := none }

/-- The output of `merge dsF10 dsS10 none`. -/
def c10Out : Dataset := .mk profNoNodata [("b", [[.q 9]])] (some .nan) none .pyNone

/-- The post-call state of `dsF10` after `merge dsF10 dsS10 none`. -/
def c10FirstAfter : Dataset := .mk profNoNodata [("b", [[.q 5]])] (some .nan) none .pyNone

/-- The post-call state of `dsS10` after `merge dsF10 dsS10 none`. -/
def c10SecondAfter : Dataset := .mk profNoNodata [("b", [[.q 9]])] (some .nan) none .pyNone

/-! ## Basic list lemmas -/

theorem getD_set_eq_ite {α : Type} (l : List α) (n j : ℕ) (v d : α) :
    (l.set n v).getD j d = if n = j ∧ j < l.length then v else l.getD j d := by
  induction l generalizing n j with
  | nil => simp [List.getD]
  | cons x xs ih =>
    cases n with
    | zero =>
      cases j with
      | zero => simp [List.getD]
      | succ j => simp [List.getD]
    | succ n =>
      cases j with
      | zero => simp [List.getD]
      | succ j =>
        simp only [List.set, List.getD_cons_succ, List.length_cons, ih]
        have : (n = j ∧ j < xs.length) ↔ (n + 1 = j + 1 ∧ j + 1 < xs.length + 1) := by omega
        rw [if_congr this rfl rfl]

theorem getD_map_eq {α β : Type} (l : List α) (f : α → β) (j : ℕ) (d : α) (d' : β)
    (hj : j < l.length) : (l.map f).getD j d' = f (l.getD j d) := by
  induction l generalizing j with
  | nil => simp at hj
  | cons x xs ih =>
    cases j with
    | zero => simp [List.getD]
    | succ j =>
      simp only [List.length_cons] at hj
      simp only [List.map_cons, List.getD_cons_succ]
      exact ih j (by omega)

theorem getD_mem_of_lt {α : Type} (l : List α) (j : ℕ) (d : α) (hj : j < l.length) :
    l.getD j d ∈ l := by
  induction l generalizing j with
  | nil => simp at hj
  | cons x xs ih =>
    cases j with
    | zero => simp [List.getD]
    | succ j =>
      simp only [List.length_cons] at hj
      simp only [List.getD_cons_succ]
      exact List.mem_cons_of_mem _ (ih j (by omega))

theorem mem_set_of_mem {α : Type} (l : List α) (n : ℕ) (v x : α) (hx : x ∈ l.set n v) :
    x = v ∨ x ∈ l := by
  induction l generalizing n with
  | nil => simp [List.set] at hx
  | cons y ys ih =>
    cases n with
    | zero =>
      rcases List.mem_cons.mp hx with h | h
      · exact .inl h
      · exact .inr (List.mem_cons_of_mem _ h)
    | succ n =>
      rcases List.mem_cons.mp hx with h | h
      · exact .inr (h ▸ List.mem_cons_self _ _)
      · rcases ih n h with h' | h'
        · exact .inl h'
        · exact .inr (List.mem_cons_of_mem _ h')

/-! ## Behaviour of the mosaic offset-write loops -/

theorem writeCellsAux_ok_length (row : List Val) (co : ℤ) :
    ∀ (k c : ℕ) (dst dst' : List Val), writeCellsAux row co c k dst = .ok dst' →
      dst'.length = dst.length := by
  intro k
  induction k with
  | zero =>
    intro c dst dst' h
    simp only [writeCellsAux] at h
    cases h
    rfl
  | succ k ih =>
    intro c dst dst' h
    simp only [writeCellsAux] at h
    cases hp : pySet dst ((c : ℤ) + co) (row.getD c .nan) with
    | error e => rw [hp] at h; cases h
    | ok dst2 =>
      rw [hp] at h
      have h2 := ih (c + 1) dst2 dst' h
      unfold pySet at hp
      cases hq : pyIdx dst.length ((c : ℤ) + co) with
      | none => rw [hq] at hp; cases hp
      | some n =>
        rw [hq] at hp
        cases hp
        rw [h2, List.length_set]

/-- Success and cell-level characterization of the inner write loop, for
a nonnegative column offset: cells `c+co, …, c+co+k−1` of the
destination row take the source row's values, the rest are untouched. -/
theorem writeCellsAux_spec (row : List Val) (co : ℤ) (hco : 0 ≤ co) :
    ∀ (k c : ℕ) (dst : List Val), c + co.toNat + k ≤ dst.length →
      ∃ dst', writeCellsAux row co c k dst = .ok dst' ∧ dst'.length = dst.length ∧
        ∀ j : ℕ, dst'.getD j .nan =
          if c + co.toNat ≤ j ∧ j < c + co.toNat + k then row.getD (j - co.toNat) .nan
          else dst.getD j .nan := by
  intro k
  induction k with
  | zero =>
    intro c dst _
    refine ⟨dst, by simp only [writeCellsAux], rfl, fun j => ?_⟩
    rw [if_neg (by omega)]
  | succ k ih =>
    intro c dst hlen
    have hidx : pyIdx dst.length ((c : ℤ) + co) = some (c + co.toNat) := by
      unfold pyIdx
      rw [if_pos ⟨by omega, by omega⟩]
      congr 1
      omega
    have hset : pySet dst ((c : ℤ) + co) (row.getD c .nan)
        = .ok (dst.set (c + co.toNat) (row.getD c .nan)) := by
      unfold pySet
      rw [hidx]
    obtain ⟨dst', heq, hlen', hchar⟩ := ih (c + 1) (dst.set (c + co.toNat) (row.getD c .nan))
      (by rw [List.length_set]; omega)
    refine ⟨dst', ?_, by rw [hlen', List.length_set], fun j => ?_⟩
    · simp only [writeCellsAux]
      rw [hset]
      exact heq
    · rw [hchar j]
      by_cases h1 : (c + 1) + co.toNat ≤ j ∧ j < (c + 1) + co.toNat + k
      · rw [if_pos h1, if_pos (by omega)]
      · rw [if_neg h1, getD_set_eq_ite]
        by_cases h2 : c + co.toNat = j ∧ j < dst.length
        · rw [if_pos h2, if_pos (by omega), show j - co.toNat = c by omega]
        · rw [if_neg h2, if_neg (by omega)]

theorem writeRowsAux_ok_shape (input : Arr) (C : ℕ) (ro co : ℤ) :
    ∀ (k r : ℕ) (sub out : Arr), writeRowsAux input C ro co r k sub = .ok out →
      out.length = sub.length ∧ ∀ i : ℕ, (out.getD i []).length = (sub.getD i []).length := by
  intro k
  induction k with
  | zero =>
    intro r sub out h
    simp only [writeRowsAux] at h
    cases h
    exact ⟨rfl, fun _ => rfl⟩
  | succ k ih =>
    intro r sub out h
    simp only [writeRowsAux] at h
    cases hq : pyIdx sub.length ((r : ℤ) + ro) with
    | none => simp only [hq] at h; exact Except.noConfusion h
    | some rn =>
      simp only [hq] at h
      cases hw : writeCellsAux (input.getD r []) co 0 C (sub.getD rn []) with
      | error e => simp only [hw] at h; exact Except.noConfusion h
      | ok row' =>
        simp only [hw] at h
        obtain ⟨hl, hrows⟩ := ih (r + 1) (sub.set rn row') out h
        have hrl := writeCellsAux_ok_length (input.getD r []) co C 0 _ _ hw
        refine ⟨by rw [hl, List.length_set], fun i => ?_⟩
        rw [hrows i, getD_set_eq_ite]
        by_cases h2 : rn = i ∧ i < sub.length
        · rw [if_pos h2, hrl, h2.1]
        · rw [if_neg h2]

/-- Success and cell-level characterization of the outer write loop on a
rectangular substrate, for nonnegative offsets: the written footprint
takes the input's values, everything else keeps the substrate's. -/
theorem writeRowsAux_spec (input : Arr) (C : ℕ) (ro co : ℤ) (hro : 0 ≤ ro) (hco : 0 ≤ co)
    (S W : ℕ) (hCW : co.toNat + C ≤ W) :
    ∀ (k r : ℕ) (sub : Arr), sub.shaped S W → r + ro.toNat + k ≤ S →
      ∃ out, writeRowsAux input C ro co r k sub = .ok out ∧ out.shaped S W ∧
        ∀ i j : ℕ, out.get2 i j =
          if (r + ro.toNat ≤ i ∧ i < r + ro.toNat + k) ∧ (co.toNat ≤ j ∧ j < co.toNat + C)
          then input.get2 (i - ro.toNat) (j - co.toNat)
          else sub.get2 i j := by
  intro k
  induction k with
  | zero =>
    intro r sub hsub _
    refine ⟨sub, by simp only [writeRowsAux], hsub, fun i j => ?_⟩
    rw [if_neg (by omega)]
  | succ k ih =>
    intro r sub hsub hlen
    have hS : sub.length = S := hsub.1
    have hidx : pyIdx sub.length ((r : ℤ) + ro) = some (r + ro.toNat) := by
      unfold pyIdx
      rw [if_pos ⟨by omega, by omega⟩]
      congr 1
      omega
    have hrow0 : (sub.getD (r + ro.toNat) []).length = W :=
      hsub.2 _ (getD_mem_of_lt sub (r + ro.toNat) [] (by omega))
    obtain ⟨row', hwc, hrl, hcchar⟩ := writeCellsAux_spec (input.getD r []) co hco C 0
      (sub.getD (r + ro.toNat) []) (by omega)
    have hsub2 : Arr.shaped (sub.set (r + ro.toNat) row') S W := by
      refine ⟨by rw [List.length_set, hS], fun rowx hx => ?_⟩
      rcases mem_set_of_mem _ _ _ _ hx with h | h
      · rw [h, hrl, hrow0]
      · exact hsub.2 _ h
    obtain ⟨out, heq, hshape, hchar⟩ := ih (r + 1) (sub.set (r + ro.toNat) row') hsub2
      (by omega)
    refine ⟨out, ?_, hshape, fun i j => ?_⟩
    · simp only [writeRowsAux]
      simp only [hidx, hwc]
      exact heq
    · rw [hchar i j]
      by_cases h1 : ((r + 1) + ro.toNat ≤ i ∧ i < (r + 1) + ro.toNat + k) ∧
          (co.toNat ≤ j ∧ j < co.toNat + C)
      · rw [if_pos h1, if_pos (by omega)]
      · rw [if_neg h1]
        show ((sub.set (r + ro.toNat) row').getD i []).getD j .nan = _
        rw [getD_set_eq_ite]
        by_cases h2 : r + ro.toNat = i ∧ i < sub.length
        · rw [if_pos h2, hcchar j]
          by_cases h3 : 0 + co.toNat ≤ j ∧ j < 0 + co.toNat + C
          · rw [if_pos h3, if_pos (by omega), show i - ro.toNat = r by omega]
            rfl
          · rw [if_neg h3, if_neg (by omega)]
            show _ = (sub.getD i []).getD j .nan
            rw [← h2.1]
        · rw [if_neg h2, if_neg (by omega)]
          rfl

/-- The offset copy `overwrite_with_offset` on a rectangular substrate
with nonnegative, in-bounds offsets: it succeeds, preserves the
substrate's shape, forces its whole footprint to the input's values
regardless of the substrate's prior content, and leaves every other cell
unchanged. -/
theorem overwrite_with_offset_spec (input sub : Arr) (ro co : ℤ)
    (hsub : sub.rect) (hro : 0 ≤ ro) (hco : 0 ≤ co)
    (hR : ro + (input.rows : ℤ) ≤ (sub.rows : ℤ)) (hC : co + (input.cols : ℤ) ≤ (sub.cols : ℤ)) :
    ∃ out, overwrite_with_offset input ro co sub = .ok out ∧
      out.shaped sub.rows sub.cols ∧
      (∀ r c : ℕ, r < input.rows → c < input.cols →
        out.get2 (ro.toNat + r) (co.toNat + c) = input.get2 r c) ∧
      (∀ i j : ℕ,
        ¬((ro.toNat ≤ i ∧ i < ro.toNat + input.rows) ∧
          (co.toNat ≤ j ∧ j < co.toNat + input.cols)) →
        out.get2 i j = sub.get2 i j) := by
  obtain ⟨out, heq, hshape, hchar⟩ := writeRowsAux_spec input input.cols ro co hro hco
    sub.rows sub.cols (by omega) input.rows 0 sub ⟨rfl, hsub⟩ (by omega)
  refine ⟨out, heq, hshape, fun r c hr hc => ?_, fun i j hn => ?_⟩
  · have h := hchar (ro.toNat + r) (co.toNat + c)
    rw [if_pos ⟨⟨by omega, by omega⟩, ⟨by omega, by omega⟩⟩] at h
    rw [h, show ro.toNat + r - ro.toNat = r by omega, show co.toNat + c - co.toNat = c by omega]
  · have h := hchar i j
    rw [if_neg (by omega)] at h
    exact h

/-! ## Dataset accessor lemmas -/

@[simp] theorem nodata_setNodata (d : Dataset) (n : Option Val) : (d.setNodata n).nodata = n := by
  cases d; rfl

@[simp] theorem bands_setNodata (d : Dataset) (n : Option Val) :
    (d.setNodata n).bands = d.bands := by
  cases d; rfl

@[simp] theorem profile_setNodata (d : Dataset) (n : Option Val) :
    (d.setNodata n).profile = d.profile := by
  cases d; rfl

@[simp] theorem meta_setNodata (d : Dataset) (n : Option Val) :
    (d.setNodata n).meta = d.meta := by
  cases d; rfl

@[simp] theorem profile_setProfile (d : Dataset) (p : Profile) :
    (d.setProfile p).profile = p := by
  cases d; rfl

@[simp] theorem bands_setProfile (d : Dataset) (p : Profile) :
    (d.setProfile p).bands = d.bands := by
  cases d; rfl

@[simp] theorem nodata_setProfile (d : Dataset) (p : Profile) :
    (d.setProfile p).nodata = d.nodata := by
  cases d; rfl

@[simp] theorem bands_setBands (d : Dataset) (b : Bands) : (d.setBands b).bands = b := by
  cases d; rfl

@[simp] theorem bands_setSubdatasets (d : Dataset) (x : Subds Dataset) :
    (d.setSubdatasets x).bands = d.bands := by
  cases d; rfl

@[simp] theorem profile_setBands (d : Dataset) (b : Bands) :
    (d.setBands b).profile = d.profile := by
  cases d; rfl

@[simp] theorem profile_mk (p : Profile) (b : Bands) (n : Option Val) (m : Option Meta)
    (s : Subds Dataset) : (Dataset.mk p b n m s).profile = p := rfl

@[simp] theorem bands_mk (p : Profile) (b : Bands) (n : Option Val) (m : Option Meta)
    (s : Subds Dataset) : (Dataset.mk p b n m s).bands = b := rfl

@[simp] theorem nodata_mk (p : Profile) (b : Bands) (n : Option Val) (m : Option Meta)
    (s : Subds Dataset) : (Dataset.mk p b n m s).nodata = n := rfl

/-! ## Band-dictionary lemmas -/

theorem pyLookup_eq_none_of_forall (k : String) :
    ∀ b : Bands, (∀ p ∈ b, p.1 ≠ k) → pyLookup k b = none := by
  intro b
  induction b with
  | nil => intro _; rfl
  | cons p rest ih =>
    intro h
    unfold pyLookup
    rw [if_neg (h p (List.mem_cons_self _ _))]
    exact ih (fun q hq => h q (List.mem_cons_of_mem _ hq))

theorem forall_ne_of_pyLookup_none (k : String) :
    ∀ b : Bands, pyLookup k b = none → ∀ p ∈ b, p.1 ≠ k := by
  intro b
  induction b with
  | nil => intro _ p hp; simp at hp
  | cons q rest ih =>
    intro h p hp
    unfold pyLookup at h
    by_cases hq : q.1 = k
    · rw [if_pos hq] at h; exact Option.noConfusion h
    · rw [if_neg hq] at h
      rcases List.mem_cons.mp hp with rfl | hp'
      · exact hq
      · exact ih h p hp'

theorem mem_keys_of_pyLookup (k : String) :
    ∀ (b : Bands) (v : Arr), pyLookup k b = some v → k ∈ b.map Prod.fst := by
  intro b
  induction b with
  | nil => intro v h; exact Option.noConfusion h
  | cons p rest ih =>
    intro v h
    unfold pyLookup at h
    by_cases hp : p.1 = k
    · exact hp ▸ List.mem_cons_self _ _
    · rw [if_neg hp] at h
      exact List.mem_cons_of_mem _ (ih v h)

theorem pyLookup_append_of_no_key (k : String) (x y : Bands) (hy : ∀ p ∈ y, p.1 ≠ k) :
    pyLookup k (x ++ y) = pyLookup k x := by
  induction x with
  | nil => simpa using pyLookup_eq_none_of_forall k y hy
  | cons p rest ih =>
    simp only [List.cons_append, pyLookup]
    by_cases hp : p.1 = k
    · rw [if_pos hp, if_pos hp]
    · rw [if_neg hp, if_neg hp]
      exact ih

theorem pyLookup_map_merge (k : String) (b : Bands) :
    ∀ (a : Bands) (v : Arr), pyLookup k a = some v →
      pyLookup k (a.map (fun p => (p.1, (pyLookup p.1 b).getD p.2)))
        = some ((pyLookup k b).getD v) := by
  intro a
  induction a with
  | nil => intro v h; exact Option.noConfusion h
  | cons p rest ih =>
    intro v h
    simp only [pyLookup] at h
    simp only [List.map_cons, pyLookup]
    by_cases hp : p.1 = k
    · rw [if_pos hp] at h
      rw [if_pos hp]
      cases h
      rw [hp]
    · rw [if_neg hp] at h
      rw [if_neg hp]
      exact ih v h

theorem pyLookup_pyDictMerge_of_none (a b : Bands) (k : String) (v : Arr)
    (ha : pyLookup k a = some v) (hb : pyLookup k b = none) :
    pyLookup k (pyDictMerge a b) = some v := by
  unfold pyDictMerge
  rw [pyLookup_append_of_no_key k _ _
    (fun p hp => forall_ne_of_pyLookup_none k b hb p (List.mem_of_mem_filter hp))]
  rw [pyLookup_map_merge k b a v ha, hb]
  rfl

theorem pyLookup_map_generic (k : String) (gfn : Arr → Arr) :
    ∀ a : Bands, pyLookup k (a.map (fun p => (p.1, gfn p.2))) = (pyLookup k a).map gfn := by
  intro a
  induction a with
  | nil => rfl
  | cons p rest ih =>
    simp only [List.map_cons, pyLookup]
    by_cases hp : p.1 = k
    · rw [if_pos hp, if_pos hp]
      rfl
    · rw [if_neg hp, if_neg hp]
      exact ih

theorem pyLookup_pyDel (k k' : String) :
    ∀ b : Bands, pyLookup k (pyDel k' b) = if k = k' then none else pyLookup k b := by
  intro b
  induction b with
  | nil => by_cases h : k = k' <;> simp [pyDel, pyLookup, h]
  | cons p rest ih =>
    by_cases hp : p.1 = k'
    · have hd : pyDel k' (p :: rest) = pyDel k' rest := by
        simp [pyDel, hp]
      rw [hd, ih]
      by_cases hk : k = k'
      · rw [if_pos hk, if_pos hk]
      · rw [if_neg hk, if_neg hk]
        show pyLookup k rest = if p.1 = k then some p.2 else pyLookup k rest
        rw [if_neg (fun hh => hk (hh.symm.trans hp))]
    · have hd : pyDel k' (p :: rest) = p :: pyDel k' rest := by
        simp [pyDel, hp]
      rw [hd]
      show (if p.1 = k then some p.2 else pyLookup k (pyDel k' rest))
        = if k = k' then none else if p.1 = k then some p.2 else pyLookup k rest
      rw [ih]
      by_cases hpk : p.1 = k
      · by_cases hk : k = k'
        · exact absurd (hpk.trans hk) hp
        · rw [if_pos hpk, if_neg hk, if_pos hpk]
      · by_cases hk : k = k'
        · rw [if_neg hpk, if_pos hk, if_pos hk]
        · rw [if_neg hpk, if_neg hk, if_neg hk, if_neg hpk]

/-! ## The duplicate-key loop of `combine` -/

theorem removeDuplicates_error (k : String) :
    ∀ (keys : List String) (sb : Bands), k ∈ keys → (pyLookup k sb).isSome →
      removeDuplicates keys false sb = .error .duplicateBand := by
  intro keys
  induction keys with
  | nil => intro sb h _; simp at h
  | cons k0 rest ih =>
    intro sb hk hsome
    simp only [removeDuplicates]
    by_cases h0 : (pyLookup k0 sb).isSome
    · rw [if_pos h0]
      rfl
    · rw [if_neg h0]
      rcases List.mem_cons.mp hk with rfl | hk'
      · exact absurd hsome h0
      · exact ih sb hk' hsome

theorem removeDuplicates_skip (keys : List String) :
    ∀ sb : Bands, ∃ sb', removeDuplicates keys true sb = .ok sb' ∧
      (∀ k ∈ keys, pyLookup k sb' = none) ∧
      (∀ k, pyLookup k sb = none → pyLookup k sb' = none) := by
  induction keys with
  | nil =>
    intro sb
    exact ⟨sb, rfl, fun k hk => absurd hk (List.not_mem_nil k), fun _ h => h⟩
  | cons k0 rest ih =>
    intro sb
    simp only [removeDuplicates]
    by_cases h0 : (pyLookup k0 sb).isSome
    · rw [if_pos h0]
      obtain ⟨sb', heq, hmem, hmono⟩ := ih (pyDel k0 sb)
      refine ⟨sb', heq, fun k hk => ?_, fun k hnone => ?_⟩
      · rcases List.mem_cons.mp hk with rfl | hk'
        · exact hmono k ((pyLookup_pyDel k k sb).trans (if_pos rfl))
        · exact hmem k hk'
      · refine hmono k ?_
        rw [pyLookup_pyDel]
        by_cases hkk : k = k0 <;> simp [hkk, hnone]
    · rw [if_neg h0]
      obtain ⟨sb', heq, hmem, hmono⟩ := ih sb
      refine ⟨sb', heq, fun k hk => ?_, hmono⟩
      rcases List.mem_cons.mp hk with rfl | hk'
      · exact hmono k (by simpa using h0)
      · exact hmem k hk'

/-! ## Python slicing lemmas -/

theorem getD_drop {α : Type} (l : List α) (d : α) :
    ∀ (n i : ℕ), (l.drop n).getD i d = l.getD (n + i) d := by
  induction l with
  | nil => intro n i; simp [List.drop]
  | cons x xs ih =>
    intro n i
    cases n with
    | zero => rw [Nat.zero_add]; rfl
    | succ n =>
      show (xs.drop n).getD i d = (x :: xs).getD (n + 1 + i) d
      rw [show n + 1 + i = (n + i) + 1 from by omega, List.getD_cons_succ]
      exact ih n i

theorem getD_take {α : Type} (l : List α) (d : α) :
    ∀ (n i : ℕ), i < n → (l.take n).getD i d = l.getD i d := by
  induction l with
  | nil => intro n i _; simp [List.take]
  | cons x xs ih =>
    intro n i h
    cases n with
    | zero => omega
    | succ n =>
      cases i with
      | zero => rfl
      | succ i =>
        show (xs.take n).getD i d = xs.getD i d
        exact ih n i (by omega)

/-- For an in-bounds window `0 ≤ s ≤ e ≤ len`, a Python slice has length
`e − s` and its `i`-th element is the source's `s + i`-th. -/
theorem pySlice_spec {α : Type} (l : List α) (s e : ℤ) (d : α)
    (hs : 0 ≤ s) (hse : s ≤ e) (he : e ≤ (l.length : ℤ)) :
    (pySlice l s e).length = (e - s).toNat ∧
    ∀ i : ℕ, (i : ℤ) < e - s → (pySlice l s e).getD i d = l.getD (s.toNat + i) d := by
  have hes : pySliceIdx l.length e = e.toNat := by
    unfold pySliceIdx
    rw [if_neg (by omega)]
    omega
  have hss : pySliceIdx l.length s = s.toNat := by
    unfold pySliceIdx
    rw [if_neg (by omega)]
    omega
  unfold pySlice
  rw [hes, hss]
  constructor
  · rw [List.length_drop, List.length_take]
    omega
  · intro i hi
    rw [getD_drop, getD_take l d e.toNat (s.toNat + i) (by omega)]

theorem mem_of_mem_pySlice {α : Type} (l : List α) (s e : ℤ) (x : α)
    (hx : x ∈ pySlice l s e) : x ∈ l := by
  unfold pySlice at hx
  exact ((List.drop_sublist _ _).trans (List.take_sublist _ _)).subset hx

/-! ## Rectangularity preservation -/

theorem exists_getD_of_mem {α : Type} (l : List α) (x d : α) (hx : x ∈ l) :
    ∃ i, i < l.length ∧ l.getD i d = x := by
  induction l with
  | nil => simp at hx
  | cons y ys ih =>
    rcases List.mem_cons.mp hx with rfl | h
    · exact ⟨0, by simp, rfl⟩
    · obtain ⟨i, hi, hg⟩ := ih h
      exact ⟨i + 1, by rw [List.length_cons]; omega, hg⟩

theorem cols_eq_getD_zero (a : Arr) : a.cols = (a.getD 0 []).length := by
  cases a <;> rfl

theorem rect_preserved (sub out : Arr) (hlen : out.length = sub.length)
    (hrows : ∀ i, (out.getD i []).length = (sub.getD i []).length)
    (hsub : Arr.rect sub) : Arr.rect out := by
  intro row hrow
  obtain ⟨i, hi, hg⟩ := exists_getD_of_mem out row [] hrow
  rw [← hg, hrows i, cols_eq_getD_zero out, hrows 0]
  have h1 : (sub.getD i []).length = sub.cols :=
    hsub _ (getD_mem_of_lt sub i [] (by omega))
  have h2 : (sub.getD 0 []).length = sub.cols :=
    hsub _ (getD_mem_of_lt sub 0 [] (by omega))
  rw [h1, h2]

theorem npFull_rect (r c : ℕ) (v : Val) : Arr.rect (npFull r c v) := by
  intro row hrow
  have hr : row = List.replicate c v := List.eq_of_mem_replicate hrow
  subst hr
  cases r with
  | zero => simp [npFull] at hrow
  | succ n => simp [npFull, Arr.cols, List.replicate_succ]

/-! ## The offset write at the `calc_offset_overwrite` level -/

theorem calc_offset_overwrite_shape (input sub out : Arr) (it st : Affine)
    (h : calc_offset_overwrite input it sub st = .ok out) :
    out.length = sub.length ∧ ∀ i, (out.getD i []).length = (sub.getD i []).length := by
  simp only [calc_offset_overwrite] at h
  split at h
  · exact writeRowsAux_ok_shape input input.cols _ _ input.rows 0 sub out h
  · exact Except.noConfusion h

/-- A successful `calc_offset_overwrite` with nonnegative offsets forces
every cell of its footprint to the input's value, whatever the substrate
held before. -/
theorem calc_offset_overwrite_forces (input sub out : Arr) (it st : Affine)
    (hsub : Arr.rect sub)
    (hro : 0 ≤ (mosaicOffset it st).1) (hco : 0 ≤ (mosaicOffset it st).2)
    (h : calc_offset_overwrite input it sub st = .ok out) :
    ∀ r c : ℕ, r < input.rows → c < input.cols →
      out.get2 ((mosaicOffset it st).1.toNat + r) ((mosaicOffset it st).2.toNat + c)
        = input.get2 r c := by
  simp only [calc_offset_overwrite] at h
  split at h
  case isTrue hcond =>
    obtain ⟨out', heq, _, hfoot, _⟩ := overwrite_with_offset_spec input sub
      (mosaicOffset it st).1 (mosaicOffset it st).2 hsub hro hco (by omega) (by omega)
    rw [heq] at h
    injection h with h2
    subst h2
    exact hfoot
  case isFalse _ => exact Except.noConfusion h

/-- `direct_merge` writes the second source after the first, so when the
second source's offset into the returned substrate is nonnegative, every
pixel of its footprint carries the second source's value — whatever the
first source wrote there. -/
theorem direct_merge_forces_second (fd sd out : Arr) (ft st t : Affine)
    (pr : ℚ × ℚ) (nv : Option Val)
    (h : direct_merge fd ft sd st pr nv = .ok (out, t))
    (hro : 0 ≤ (mosaicOffset st t).1) (hco : 0 ≤ (mosaicOffset st t).2) :
    ∀ r c : ℕ, r < sd.rows → c < sd.cols →
      out.get2 ((mosaicOffset st t).1.toNat + r) ((mosaicOffset st t).2.toNat + c)
        = sd.get2 r c := by
  unfold direct_merge at h
  split at h
  case h_1 => exact Except.noConfusion h
  case h_2 nodata =>
    dsimp only at h
    split at h
    case h_1 => exact Except.noConfusion h
    case h_2 after_first heq1 =>
      split at h
      case h_1 => exact Except.noConfusion h
      case h_2 after_second heq2 =>
        injection h with h2
        injection h2 with hout ht
        subst hout
        subst ht
        obtain ⟨hlen, hrows⟩ := calc_offset_overwrite_shape fd _ after_first ft _ heq1
        have hrect : Arr.rect after_first :=
          rect_preserved _ after_first hlen hrows (npFull_rect _ _ _)
        exact calc_offset_overwrite_forces sd after_first after_second st _ hrect hro hco heq2

/-! ## Claim theorems -/

/-- **C10**: `merge` mutates its inputs' metadata even though it never
writes into their band arrays: an absent `first.nodata` is overwritten
with NaN on the input object itself (likewise for `second`), and the
returned grid's profile is `first`'s profile object with its `transform`,
`width`, `height` and `count` fields overwritten in place (all other
profile fields unchanged), while both inputs' band arrays are untouched —
so `first`'s profile now describes the output's dimensions, not
`first`'s own band arrays. -/
theorem merge_mutates_input_metadata (f s out f' s' : Dataset)
    (h : merge f s none = .ok (out, f', s')) (hn : f.nodata = none) :
    f'.nodata = some .nan ∧
    f'.profile = out.profile ∧
    f'.bands = f.bands ∧
    s'.bands = s.bands ∧
    s'.nodata = some (s.nodata.getD .nan) ∧
    out.profile.crs = f.profile.crs ∧
    out.profile.pixel_dimensions = f.profile.pixel_dimensions ∧
    out.profile.count = (out.bands.length : ℤ) ∧
    out.nodata = some .nan := by
  unfold merge at h
  split at h
  · exact Except.noConfusion h
  · dsimp only at h
    split at h
    case h_1 => exact Except.noConfusion h
    case h_2 new_bands output_transform heq =>
      split at h
      case h_1 => exact Except.noConfusion h
      case h_2 last hlast =>
        injection h with h2
        injection h2 with hout h3
        injection h3 with hf hs
        subst hout
        subst hf
        subst hs
        simp [hn]

/-- Witness for `merge_mutates_input_metadata` at the concrete 1×1
scenario with absent nodata values. -/
theorem merge_mutates_input_metadata_witness :
    merge dsF10 dsS10 none = .ok (c10Out, c10FirstAfter, c10SecondAfter) ∧
    dsF10.nodata = none ∧
    (c10FirstAfter.nodata = some .nan ∧
     c10FirstAfter.profile = c10Out.profile ∧
     c10FirstAfter.bands = dsF10.bands ∧
     c10SecondAfter.bands = dsS10.bands ∧
     c10SecondAfter.nodata = some (dsS10.nodata.getD .nan) ∧
     c10Out.profile.crs = dsF10.profile.crs ∧
     c10Out.profile.pixel_dimensions = dsF10.profile.pixel_dimensions ∧
     c10Out.profile.count = (c10Out.bands.length : ℤ) ∧
     c10Out.nodata = some .nan) :=
  ⟨by with_unfolding_all rfl, rfl,
    merge_mutates_input_metadata dsF10 dsS10 c10Out c10FirstAfter c10SecondAfter
      (by with_unfolding_all rfl) rfl⟩

/-- **C3** (code bug): the nodata remap inside `merge` is dead code — the
source computes `np.where(second == second.nodata, first.nodata, second)`
and discards the result — so with `first.nodata = 0`, `second.nodata = −1`
and `second`'s single overlapping pixel holding its own sentinel −1, the
merged output's cell is −1: it retains `second`'s distinct nodata
sentinel as a data value, contrary to the claim. -/
theorem merge_keeps_second_nodata_sentinel :
    dsF3.nodata = some (Val.q 0) ∧ dsS3.nodata = some (Val.q (-1)) ∧
    (merge dsF3 dsS3 none).map (fun tr => tr.1.bands) = .ok [("b", [[Val.q (-1)]])] :=
  ⟨rfl, rfl, by with_unfolding_all rfl⟩

/-- **C1**: the second source is written into the nodata-filled union
substrate after the first, so every pixel of the second source's
footprint takes the second source's value (last-writer-wins, no
blending) — stated for any successful `direct_merge` whose second-source
offset is nonnegative; and the concrete scenario of two 4×4 single-band
grids (A all 5 at the origin, B all 9 offset 2 right and 2 down, pixel
size 1, nodata −1) merges to exactly the claimed 6×6 substrate. -/
theorem merge_last_writer_wins_and_scenario :
    (∀ (fd sd out : Arr) (ft st t : Affine) (pr : ℚ × ℚ) (nv : Option Val),
      direct_merge fd ft sd st pr nv = .ok (out, t) →
      0 ≤ (mosaicOffset st t).1 → 0 ≤ (mosaicOffset st t).2 →
      ∀ r c : ℕ, r < sd.rows → c < sd.cols →
        out.get2 ((mosaicOffset st t).1.toNat + r) ((mosaicOffset st t).2.toNat + c)
          = sd.get2 r c) ∧
    (merge dsA dsB none).map (fun tr => tr.1.bands) = .ok [("b", mergedAB)] :=
  ⟨fun fd sd out ft st t pr nv h hro hco =>
    direct_merge_forces_second fd sd out ft st t pr nv h hro hco,
   by with_unfolding_all rfl⟩

/-- Witness for the general conjunct of
`merge_last_writer_wins_and_scenario`, at a concrete aligned 1×1
`direct_merge` whose substrate cell was first written with 5 and then
overwritten with the second source's −1. -/
theorem merge_last_writer_wins_witness :
    direct_merge [[Val.q 5]] tUnit [[Val.q (-1)]] tUnit (1, 1) (some (Val.q 0))
      = .ok ([[Val.q (-1)]], tUnit) ∧
    0 ≤ (mosaicOffset tUnit tUnit).1 ∧ 0 ≤ (mosaicOffset tUnit tUnit).2 ∧
    0 < Arr.rows [[Val.q (-1)]] ∧ 0 < Arr.cols [[Val.q (-1)]] ∧
    Arr.get2 [[Val.q (-1)]] ((mosaicOffset tUnit tUnit).1.toNat + 0)
      ((mosaicOffset tUnit tUnit).2.toNat + 0) = Arr.get2 [[Val.q (-1)]] 0 0 :=
  ⟨by with_unfolding_all rfl, by with_unfolding_all decide, by with_unfolding_all decide,
   by decide, by decide,
   merge_last_writer_wins_and_scenario.1 [[Val.q 5]] [[Val.q (-1)]] [[Val.q (-1)]]
     tUnit tUnit tUnit (1, 1) (some (Val.q 0)) (by with_unfolding_all rfl)
     (by with_unfolding_all decide) (by with_unfolding_all decide) 0 0
     (by decide) (by decide)⟩

/-- `pyLookup` finds an actual entry of the band dictionary. -/
theorem mem_of_pyLookup (k : String) :
    ∀ (b : Bands) (v : Arr), pyLookup k b = some v → (k, v) ∈ b := by
  intro b
  induction b with
  | nil => intro v h; exact Option.noConfusion h
  | cons p rest ih =>
    intro v h
    unfold pyLookup at h
    by_cases hp : p.1 = k
    · rw [if_pos hp] at h
      injection h with h2
      have hkv : (k, v) = p := by rw [← hp, ← h2]
      rw [hkv]
      exact List.mem_cons_self _ _
    · rw [if_neg hp] at h
      exact List.mem_cons_of_mem _ (ih v h)

/-- **C7** (amended): `crop_by_pixel` performs no bounds validation (the
source never raises); for every window satisfying
`0 ≤ row_start < row_end ≤ height` and likewise for columns, it slices
each band to the half-open window
`[row_start,row_end) × [col_start,col_end)` and sets the profile's
height/width to the window size. -/
theorem crop_by_pixel_window (ds : Dataset) (rs re cs ce : ℤ) (copy : Bool)
    (H W : ℕ) (hH : ds.profile.height = (H : ℤ)) (hW : ds.profile.width = (W : ℤ))
    (hbands : ∀ p ∈ ds.bands, Arr.shaped p.2 H W)
    (h1 : 0 ≤ rs) (h2 : rs < re) (h3 : re ≤ (H : ℤ))
    (h4 : 0 ≤ cs) (h5 : cs < ce) (h6 : ce ≤ (W : ℤ)) :
    (crop_by_pixel ds rs re cs ce copy).profile.height = re - rs ∧
    (crop_by_pixel ds rs re cs ce copy).profile.width = ce - cs ∧
    ∀ k a, pyLookup k ds.bands = some a →
      ∃ a', pyLookup k (crop_by_pixel ds rs re cs ce copy).bands = some a' ∧
        Arr.shaped a' (re - rs).toNat (ce - cs).toNat ∧
        ∀ i j : ℕ, (i : ℤ) < re - rs → (j : ℤ) < ce - cs →
          a'.get2 i j = a.get2 (rs.toNat + i) (cs.toNat + j) := by
  refine ⟨by simp [crop_by_pixel], by simp [crop_by_pixel], fun k a hka => ?_⟩
  have hsh : Arr.shaped a H W := hbands (k, a) (mem_of_pyLookup k ds.bands a hka)
  have halen : a.length = H := hsh.1
  have hlook : pyLookup k (crop_by_pixel ds rs re cs ce copy).bands
      = some ((pySlice a rs re).map (fun row => pySlice row cs ce)) := by
    have h0 := pyLookup_map_generic k
      (fun x => (pySlice x rs re).map (fun row => pySlice row cs ce)) ds.bands
    rw [hka] at h0
    exact h0
  obtain ⟨hrowlen, hrowget⟩ := pySlice_spec a rs re ([] : List Val) h1 (by omega) (by omega)
  refine ⟨_, hlook, ⟨by rw [List.length_map, hrowlen], fun row' hrow' => ?_⟩, fun i j hi hj => ?_⟩
  · obtain ⟨row, hrow, hrow'eq⟩ := List.mem_map.mp hrow'
    have hrW : row.length = W := hsh.2 row (mem_of_mem_pySlice a rs re row hrow)
    rw [← hrow'eq]
    exact (pySlice_spec row cs ce Val.nan h4 (by omega) (by omega)).1
  · have hilen : i < (pySlice a rs re).length := by rw [hrowlen]; omega
    show ((((pySlice a rs re).map (fun row => pySlice row cs ce)).getD i []).getD j Val.nan)
      = a.get2 (rs.toNat + i) (cs.toNat + j)
    rw [getD_map_eq _ _ i ([] : List Val) ([] : List Val) hilen, hrowget i (by omega)]
    have hrW : (a.getD (rs.toNat + i) []).length = W :=
      hsh.2 _ (getD_mem_of_lt a (rs.toNat + i) [] (by omega))
    rw [(pySlice_spec (a.getD (rs.toNat + i) []) cs ce Val.nan h4 (by omega)
      (by omega)).2 j (by omega)]
    rfl

/-- Witness for `crop_by_pixel_window`: the interior window `[0,2) × [1,2)`
of a concrete 2×2 grid. -/
theorem crop_by_pixel_window_witness :
    ds7.profile.height = ((2 : ℕ) : ℤ) ∧ ds7.profile.width = ((2 : ℕ) : ℤ) ∧
    (∀ p ∈ ds7.bands, Arr.shaped p.2 2 2) ∧
    ((crop_by_pixel ds7 0 2 1 2 false).profile.height = 2 - 0 ∧
     (crop_by_pixel ds7 0 2 1 2 false).profile.width = 2 - 1 ∧
     ∀ k a, pyLookup k ds7.bands = some a →
       ∃ a', pyLookup k (crop_by_pixel ds7 0 2 1 2 false).bands = some a' ∧
         Arr.shaped a' ((2 : ℤ) - 0).toNat ((2 : ℤ) - 1).toNat ∧
         ∀ i j : ℕ, (i : ℤ) < 2 - 0 → (j : ℤ) < 2 - 1 →
           a'.get2 i j = a.get2 ((0 : ℤ).toNat + i) ((1 : ℤ).toNat + j)) :=
  ⟨rfl, rfl, by decide,
   crop_by_pixel_window ds7 0 2 1 2 false 2 2 rfl rfl (by decide)
     (by decide) (by decide) (by decide) (by decide) (by decide) (by decide)⟩

/-- **C7** (counterexample): the out-of-bounds window `[0,5) × [0,5)` on a
2×2 grid does not fail — there is no bounds check and no
`OutOfBoundsError` — the slice is silently clamped to the full 2×2 array
while the profile claims height 5. -/
theorem crop_by_pixel_no_bounds_check :
    (crop_by_pixel ds7 0 5 0 5 false).bands = ds7.bands ∧
    (crop_by_pixel ds7 0 5 0 5 false).profile.height = 5 ∧
    ds7.profile.height = 2 :=
  ⟨by with_unfolding_all rfl, by with_unfolding_all rfl, rfl⟩

/-- Python `int()` on a nonnegative rational is its floor. -/
theorem pyInt_of_nonneg (x : ℚ) (hx : 0 ≤ x) : pyInt x = ⌊x⌋ := by
  unfold pyInt
  rw [if_pos hx]

/-- **C6** (amended): for a grid with isotropic metadata resolution,
`rasterio_resample` computes `scaling = int(resolution) / target`, sets
the new width and height to `int(old · scaling)` — i.e. the *floor* of
the product for nonnegative products, not its rounding — and divides the
transform's diagonal terms by `scaling` while leaving the shear terms
untouched. -/
theorem rasterio_resample_dims (kernel : ReprojectKernel) (f : Dataset) (target : ℚ)
    (nn : Option Val) (m : Meta) (hm : f.meta = some m)
    (hsq : m.resolution.1 = m.resolution.2)
    (hw0 : 0 ≤ (f.profile.width : ℚ) * ((pyInt m.resolution.1 : ℚ) / target))
    (hh0 : 0 ≤ (f.profile.height : ℚ) * ((pyInt m.resolution.1 : ℚ) / target)) :
    (rasterio_resample kernel f target nn).map (fun d => d.profile.width)
      = .ok ⌊(f.profile.width : ℚ) * ((pyInt m.resolution.1 : ℚ) / target)⌋ ∧
    (rasterio_resample kernel f target nn).map (fun d => d.profile.height)
      = .ok ⌊(f.profile.height : ℚ) * ((pyInt m.resolution.1 : ℚ) / target)⌋ ∧
    (rasterio_resample kernel f target nn).map (fun d => d.profile.transform)
      = .ok ⟨f.profile.transform.a / ((pyInt m.resolution.1 : ℚ) / target),
             f.profile.transform.b, f.profile.transform.c, f.profile.transform.d,
             f.profile.transform.e / ((pyInt m.resolution.1 : ℚ) / target),
             f.profile.transform.f⟩ := by
  have hnot : ¬(m.resolution.1 ≠ m.resolution.2) := fun hne => hne hsq
  have hpw := pyInt_of_nonneg _ hw0
  have hph := pyInt_of_nonneg _ hh0
  refine ⟨?_, ?_, ?_⟩ <;>
    simp [rasterio_resample, hm, if_neg hnot, Except.map, hpw, hph]

/-- Witness for `rasterio_resample_dims` at the 3×3 resolution-10 grid and
target resolution 4 (`scaling = 10/4`). -/
theorem rasterio_resample_dims_witness :
    dsC6.meta = some ⟨(10, 10)⟩ ∧
    ((rasterio_resample zeroKernel dsC6 4 none).map (fun d => d.profile.width)
      = .ok ⌊(dsC6.profile.width : ℚ) * ((pyInt ((10 : ℚ), (10 : ℚ)).1 : ℚ) / 4)⌋ ∧
     (rasterio_resample zeroKernel dsC6 4 none).map (fun d => d.profile.height)
      = .ok ⌊(dsC6.profile.height : ℚ) * ((pyInt ((10 : ℚ), (10 : ℚ)).1 : ℚ) / 4)⌋ ∧
     (rasterio_resample zeroKernel dsC6 4 none).map (fun d => d.profile.transform)
      = .ok ⟨dsC6.profile.transform.a / ((pyInt ((10 : ℚ), (10 : ℚ)).1 : ℚ) / 4),
             dsC6.profile.transform.b, dsC6.profile.transform.c, dsC6.profile.transform.d,
             dsC6.profile.transform.e / ((pyInt ((10 : ℚ), (10 : ℚ)).1 : ℚ) / 4),
             dsC6.profile.transform.f⟩) :=
  ⟨rfl, rasterio_resample_dims zeroKernel dsC6 4 none ⟨(10, 10)⟩ rfl rfl
    (by with_unfolding_all decide) (by with_unfolding_all decide)⟩

/-- **C6** (counterexample): the claim's `round` disagrees with the code's
`int()` truncation: at resolution 10, target 4 and old dimension 3 the
product is 7.5; the code stores `int(7.5) = 7` while `round(7.5) = 8`. -/
theorem rasterio_resample_truncates_not_rounds :
    (rasterio_resample zeroKernel dsC6 4 none).map (fun d => d.profile.height) = .ok 7 ∧
    round ((3 : ℚ) * ((10 : ℚ) / 4)) = 8 ∧ (7 : ℤ) ≠ 8 :=
  ⟨by with_unfolding_all rfl, by with_unfolding_all rfl, by decide⟩

/-- **C2** (code bug): `rasterio_resample` allocates each output band as
`np.empty(shape=(new_width, new_height))` — transposed — so resampling a
4-row × 3-column grid from resolution 10 to 5 yields a profile of height
8 and width 6 but a band of 6 rows and 8 columns, violating the global
shape invariant `band.shape == (height, width)`. -/
theorem rasterio_resample_transposed_bands :
    (rasterio_resample zeroKernel dsC2 5 none).map
        (fun d => (d.profile.height, d.profile.width)) = .ok (8, 6) ∧
    (rasterio_resample zeroKernel dsC2 5 none).map
        (fun d => d.bands.map (fun p => (p.1, p.2.rows, p.2.cols))) = .ok [("b", 6, 8)] ∧
    (rasterio_resample zeroKernel dsC2 5 none).map
        (fun d => d.bands.all
          (fun p => decide (Arr.shaped p.2 d.profile.height.toNat d.profile.width.toNat)))
      = .ok false :=
  ⟨by with_unfolding_all rfl, by with_unfolding_all rfl, by with_unfolding_all rfl⟩

/-- **C4** (code bug): `clip` builds `ChainMap(defaults, user)` with the
defaults as the highest-priority map, so the effective `"crop"`
preference is `True` for *both* caller argument values; in particular
`clip` with `crop=False` still runs the extent crop — on a 4×4 grid with
a geometry selecting the interior pixel `[1,2) × [1,2)`, the output
profile is 1×1 instead of the unclipped 4×4. -/
theorem clip_crop_argument_ignored :
    clip_preferences true "crop" = some (.bool true) ∧
    clip_preferences false "crop" = some (.bool true) ∧
    ds4.profile.width = 4 ∧
    (clip gmAll ds4 sf4 false).map (fun d => (d.profile.width, d.profile.height))
      = .ok (1, 1) :=
  ⟨rfl, rfl, rfl, by with_unfolding_all rfl⟩

/-- **C5** (amended): `combine` does not allocate a fresh grid — its
result is the mutated `first` itself.  For compatible inputs without
sub-grids and `copy=true`, the call succeeds, the returned grid and the
post-call `first` are one and the same value — `first` with its band
dictionary replaced by the merged dictionary and its `subdatasets` field
replaced by the empty dict — while `second` is returned unchanged. -/
theorem combine_returns_mutated_first (f s : Dataset) (sd : Bool) (sb' : Bands)
    (fm sm : Meta) (hfm : f.meta = some fm) (hsm : s.meta = some sm)
    (hres : fm.resolution = sm.resolution) (hcrs : f.profile.crs = s.profile.crs)
    (hh : f.profile.height = s.profile.height) (hw : f.profile.width = s.profile.width)
    (hfs : f.subdatasets = .pyNone) (hss : s.subdatasets = .pyNone)
    (hrd : removeDuplicates (f.bands.map Prod.fst) sd s.bands = .ok sb') :
    combine (some f) (some s) sd true =
      .ok (some ((f.setBands (pyDictMerge f.bands sb')).setSubdatasets .pyEmptyDict),
           some ((f.setBands (pyDictMerge f.bands sb')).setSubdatasets .pyEmptyDict),
           some s) := by
  unfold combine
  simp only [hfm, hsm]
  rw [if_neg (by simp [hres, hcrs, hh, hw])]
  simp only [hrd, hfs, hss]
  rfl

/-- Witness for `combine_returns_mutated_first`: combining the concrete
disjoint-band grids `dsX` and `dsY`. -/
theorem combine_returns_mutated_first_witness :
    removeDuplicates (dsX.bands.map Prod.fst) false dsY.bands = .ok dsY.bands ∧
    combine (some dsX) (some dsY) false true =
      .ok (some ((dsX.setBands (pyDictMerge dsX.bands dsY.bands)).setSubdatasets .pyEmptyDict),
           some ((dsX.setBands (pyDictMerge dsX.bands dsY.bands)).setSubdatasets .pyEmptyDict),
           some dsY) :=
  ⟨by with_unfolding_all rfl,
   combine_returns_mutated_first dsX dsY false dsY.bands ⟨(1, 1)⟩ ⟨(1, 1)⟩ rfl rfl rfl rfl
     rfl rfl rfl rfl (by with_unfolding_all rfl)⟩

/-- **C5** (counterexample): after `combine(dsX, dsY)` the post-call
`first` grid's band map is the merged two-key dictionary, not `dsX`'s
original one-key dictionary — `combine` does not leave its first input
unchanged. -/
theorem combine_mutates_first_bands :
    afterFirstBands (combine (some dsX) (some dsY) false true)
      = some (some (pyDictMerge dsX.bands dsY.bands)) ∧
    afterFirstBands (combine (some dsX) (some dsY) false true) ≠ some (some dsX.bands) :=
  ⟨by with_unfolding_all rfl, by with_unfolding_all decide⟩

/-- **C8** (amended): for every pair of compatible grids sharing a band
key, `combine` with `skip_duplicates=false` raises the duplicate-band
error — with no restriction on sub-grids, since the duplicate check
precedes the sub-dataset merge; and with `skip_duplicates=true`,
provided neither grid carries a sub-grid list (a present list makes
that path crash with a `TypeError` before producing a result), the
returned grid holds the *first* grid's array under the colliding key
(the second's is discarded). -/
theorem combine_duplicate_policy (f s : Dataset) (copy : Bool) (k : String) (arr : Arr)
    (fm sm : Meta) (hfm : f.meta = some fm) (hsm : s.meta = some sm)
    (hres : fm.resolution = sm.resolution) (hcrs : f.profile.crs = s.profile.crs)
    (hh : f.profile.height = s.profile.height) (hw : f.profile.width = s.profile.width)
    (hk1 : pyLookup k f.bands = some arr) (hk2 : (pyLookup k s.bands).isSome) :
    combine (some f) (some s) false copy = .error .duplicateBand ∧
    (f.subdatasets = .pyNone → s.subdatasets = .pyNone →
      (combine (some f) (some s) true copy).map
        (fun tr => tr.1.map (fun d => pyLookup k d.bands)) = .ok (some (some arr))) := by
  constructor
  · unfold combine
    simp only [hfm, hsm]
    rw [if_neg (by simp [hres, hcrs, hh, hw])]
    rw [removeDuplicates_error k (f.bands.map Prod.fst) s.bands
      (mem_keys_of_pyLookup k f.bands arr hk1) hk2]
  · intro hfs hss
    obtain ⟨sb', heq, hmem, _⟩ := removeDuplicates_skip (f.bands.map Prod.fst) s.bands
    have hnone : pyLookup k sb' = none :=
      hmem k (mem_keys_of_pyLookup k f.bands arr hk1)
    unfold combine
    simp only [hfm, hsm]
    rw [if_neg (by simp [hres, hcrs, hh, hw])]
    simp only [heq, hfs, hss, Except.map]
    simp [pyLookup_pyDictMerge_of_none f.bands sb' k arr hk1 hnone]

/-- Witness for `combine_duplicate_policy`: `dsX` and `dsXdup` share the
band key `"x"`; the error half is also instantiated at `dsSubShared`,
which carries a sub-grid list. -/
theorem combine_duplicate_policy_witness :
    combine (some dsSubShared) (some dsXdup) false true = .error .duplicateBand ∧
    combine (some dsX) (some dsXdup) false true = .error .duplicateBand ∧
    (combine (some dsX) (some dsXdup) true true).map
        (fun tr => tr.1.map (fun d => pyLookup "x" d.bands))
      = .ok (some (some (npFull 4 4 (.q 1)))) :=
  ⟨(combine_duplicate_policy dsSubShared dsXdup true "x" (npFull 4 4 (.q 1)) ⟨(1, 1)⟩ ⟨(1, 1)⟩
      rfl rfl rfl rfl rfl rfl (by with_unfolding_all rfl) (by with_unfolding_all rfl)).1,
   (combine_duplicate_policy dsX dsXdup true "x" (npFull 4 4 (.q 1)) ⟨(1, 1)⟩ ⟨(1, 1)⟩
      rfl rfl rfl rfl rfl rfl (by with_unfolding_all rfl) (by with_unfolding_all rfl)).1,
   (combine_duplicate_policy dsX dsXdup true "x" (npFull 4 4 (.q 1)) ⟨(1, 1)⟩ ⟨(1, 1)⟩
      rfl rfl rfl rfl rfl rfl (by with_unfolding_all rfl) (by with_unfolding_all rfl)).2
     rfl rfl⟩

/-- **C8** (counterexample): with a sub-grid list on the first grid, the
`skip_duplicates=true` branch crashes with a `TypeError` (dict-unpacking
a list) instead of returning a grid holding the first's colliding
band. -/
theorem combine_skip_duplicates_crashes_with_subdatasets :
    pyLookup "x" dsSubShared.bands = some (npFull 4 4 (.q 1)) ∧
    (pyLookup "x" dsXdup.bands).isSome = true ∧
    combine (some dsSubShared) (some dsXdup) true true = .error .typeError :=
  ⟨by with_unfolding_all rfl, by with_unfolding_all rfl, by with_unfolding_all rfl⟩

/-- **C9** (code bug): `combine` merges the `subdatasets` fields with
dict unpacking (`{**a, **b}`) after replacing `None` by `{}`, so a grid
actually carrying a sub-grid *list* makes `combine` crash with a
`TypeError` instead of concatenating the lists — and even when both
inputs lack sub-grids the result's field is an empty dict, not a list. -/
theorem combine_crashes_on_subdatasets :
    combine (some dsSub) (some dsY) false true = .error .typeError ∧
    (combine (some dsX) (some dsY) false true).map
        (fun tr => tr.1.map (fun d => d.subdatasets.isEmptyDictB)) = .ok (some true) :=
  ⟨by with_unfolding_all rfl, by with_unfolding_all rfl⟩

end RasterPack

